import Mathlib

set_option linter.unusedVariables false

/-!
Shallow embedding of the Bin-Interval-Matcher core: the interval
predicate `isValueInInterval` of `src/utils/intervalParser.ts` and the
`findMatch` handler of the main application component.  JS numbers are
modelled as rationals, JS strings as `String` / `List Char`.  The
anchored regex of the source is embedded as a deterministic scanner
(its character classes are pairwise disjoint at every choice point, so
no backtracking can change the outcome).
-/

/-- The JS whitespace class (regex `\s`, also used by `String.prototype.trim`),
restricted to its common members (space, tab, LF, CR, VT, FF, NBSP). -/
def isWs (c : Char) : Bool :=
  c.toNat = 32 || c.toNat = 9 || c.toNat = 10 || c.toNat = 13 ||
  c.toNat = 11 || c.toNat = 12 || c.toNat = 160

/-- The regex digit class `\d`. -/
def isDig (c : Char) : Bool := 48 ≤ c.toNat && c.toNat ≤ 57

/-- Drop leading whitespace characters. -/
def dropWs : List Char → List Char
  | [] => []
  | c :: cs => if isWs c then dropWs cs else c :: cs

/-- Model of `String.prototype.trim`: drop whitespace from both ends. -/
def trimJs (l : List Char) : List Char := (dropWs (dropWs l).reverse).reverse

/-- Split off the longest digit prefix (regex `\d*`). -/
def spanDig : List Char → List Char × List Char
  | [] => ([], [])
  | c :: cs =>
    if isDig c then
      let p := spanDig cs
      (c :: p.1, p.2)
    else ([], c :: cs)

/-- One unsigned number token of the interval regex: `\d+\.?\d*`.
Returns the token and the unconsumed remainder. -/
def parseNumCore (l : List Char) : Option (List Char × List Char) :=
  let p := spanDig l
  if p.1 = [] then none
  else
    match p.2 with
    | c :: r =>
      if c = '.' then
        let q := spanDig r
        some (p.1 ++ '.' :: q.1, q.2)
      else some (p.1, c :: r)
    | [] => some (p.1, [])

/-- A signed number token of the interval regex: `-?\d+\.?\d*`. -/
def parseNumTok (l : List Char) : Option (List Char × List Char) :=
  match l with
  | [] => none
  | c :: rest =>
    if c = '-' then
      match parseNumCore rest with
      | none => none
      | some p => some ('-' :: p.1, p.2)
    else parseNumCore (c :: rest)

/-- The anchored interval regex of `intervalParser.ts`, applied to the whole
(already trimmed) character list.  On success it yields the opening bracket,
the two captured number substrings and the closing bracket, exactly the four
capture groups of the source regex. -/
def matchIntervalRegex (l : List Char) :
    Option (Char × List Char × List Char × Char) :=
  match l with
  | [] => none
  | b :: l1 =>
    if b = '(' ∨ b = '[' then
      match parseNumTok (dropWs l1) with
      | none => none
      | some (t1, l3) =>
        match dropWs l3 with
        | [] => none
        | c2 :: l5 =>
          if c2 = ',' then
            match parseNumTok (dropWs l5) with
            | none => none
            | some (t2, l7) =>
              match dropWs l7 with
              | [cb] => if cb = ')' ∨ cb = ']' then some (b, t1, t2, cb) else none
              | _ => none
          else none
    else none

/-- Value of a digit string read in base 10. -/
def digitsVal (l : List Char) : ℕ := l.foldl (fun a c => 10 * a + (c.toNat - 48)) 0

/-- Strip an optional leading sign; the boolean is `true` for `-`. -/
def splitSign (l : List Char) : Bool × List Char :=
  match l with
  | [] => (false, [])
  | c :: r => if c = '-' then (true, r) else if c = '+' then (false, r) else (false, c :: r)

/-- Exponent suffix after an `e`/`E`: `[+-]?\d+`; `none` when no digits follow
(JS then ignores the exponent). -/
def parseExpPart (l : List Char) : Option ℤ :=
  let p := splitSign l
  let q := spanDig p.2
  if q.1 = [] then none
  else some ((if p.1 then -1 else 1) * (digitsVal q.1 : ℤ))

/-- Multiply by `10 ^ e` for a possibly negative exponent `e`. -/
def scalePow10 (e : ℤ) (q : ℚ) : ℚ :=
  if 0 ≤ e then q * (10 : ℚ) ^ e.toNat else q / (10 : ℚ) ^ (-e).toNat

/-- Model of JS `parseFloat` on finite decimal literals: skip leading
whitespace, read an optional sign, an integer part, an optional `.` with
fraction digits and an optional exponent, ignoring any trailing garbage;
`none` models the `NaN` result when no digit was read at all.
(The JS special literal `Infinity` is outside this model, as the embedding
carries finite rationals only.) -/
def parseJsFloatL (l : List Char) : Option ℚ :=
  let p := splitSign (dropWs l)
  let q1 := spanDig p.2
  let q2 : List Char × List Char :=
    match q1.2 with
    | c :: r => if c = '.' then spanDig r else ([], c :: r)
    | [] => ([], [])
  if q1.1 = [] ∧ q2.1 = [] then none
  else
    let mant : ℚ := (digitsVal q1.1 : ℚ) + (digitsVal q2.1 : ℚ) / (10 : ℚ) ^ q2.1.length
    let e : ℤ :=
      match q2.2 with
      | c :: r => if c = 'e' ∨ c = 'E' then (parseExpPart r).getD 0 else 0
      | [] => 0
    some (scalePow10 e ((if p.1 then -1 else 1) * mant))

/-- Model of `parseFloat` applied to a whole string. -/
def parseJsFloat (s : String) : Option ℚ := parseJsFloatL s.data

/-- The function `isValueInInterval` of `src/utils/intervalParser.ts`.  The guard
`!intervalStr || typeof intervalStr !== 'string'` reduces, on string
arguments, to the empty-string test; then the trimmed string is matched
against the interval regex, the two captures go through `parseFloat`
with a `NaN` guard, and the two bracket-directed comparisons are
conjoined (each comparison defaults to `false` for an impossible
bracket character, as in the source's initialisation). -/
def isValueInInterval (v : ℚ) (s : String) : Bool :=
  if s = "" then false
  else
    match matchIntervalRegex (trimJs s.data) with
    | none => false
    | some (sb, t1, t2, eb) =>
      match parseJsFloatL t1, parseJsFloatL t2 with
      | some lo, some hi =>
        (if sb = '(' then decide (v > lo)
         else if sb = '[' then decide (v ≥ lo) else false) &&
        (if eb = ')' then decide (v < hi)
         else if eb = ']' then decide (v ≤ hi) else false)
      | _, _ => false

/-- A spreadsheet cell value: JS `string | number` as in `types.ts`. -/
inductive CellVal
  | str (s : String)
  | num (q : ℚ)
deriving DecidableEq

/-- A row: ordered key/value pairs (`ExcelRow` of `types.ts`). -/
abbrev ExcelRow := List (String × CellVal)

/-- The three raw input strings of the search form. -/
structure SearchInputs where
  s5 : String
  s10 : String
  s20 : String
deriving DecidableEq

/-- The `MatchResult` of `types.ts` as produced by `findMatch`: `row` is set
exactly in the found case. -/
structure MatchResult where
  found : Bool
  row : Option ExcelRow
deriving DecidableEq

/-- Outcome of one `findMatch` invocation: the two early returns of the
source (empty input, `NaN` input with its alert) and the normal path that
stores a `MatchResult`. -/
inductive FindOutcome
  | refusedEmpty
  | refusedNaN
  | ran (r : MatchResult)
deriving DecidableEq

/-- JS property read `row[k]`: `none` models `undefined`. -/
def jsLookup (row : ExcelRow) (k : String) : Option CellVal :=
  match row with
  | [] => none
  | p :: rest => if p.1 = k then some p.2 else jsLookup rest k

/-- JS truthiness of a cell value (`''` and `0` are falsy). -/
def truthy : CellVal → Bool
  | .str s => decide (s ≠ "")
  | .num q => decide (q ≠ 0)

/-- JS `String(x)` coercion of a cell value.  The rendering chosen for
numbers is irrelevant to matching: no number rendering contains a bracket,
so the interval regex rejects it either way. -/
def jsToString : CellVal → String
  | .str s => s
  | .num q => toString q

/-- JS `x || e` on a possibly-undefined value: keep `x` when truthy,
otherwise evaluate to `e`. -/
def jsOr (o : Option CellVal) (e : CellVal) : CellVal :=
  match o with
  | some v => if truthy v then v else e
  | none => e

/-- The bin-field resolution of `findMatch`:
`String(row[k1] || row[k2] || '')`. -/
def resolveBin (row : ExcelRow) (k1 k2 : String) : String :=
  jsToString (jsOr (jsLookup row k1) (jsOr (jsLookup row k2) (.str "")))

/-- The row predicate passed to `data.find` in `findMatch`: all three
resolved bin fields must contain the corresponding value. -/
def rowPred (a b c : ℚ) (row : ExcelRow) : Bool :=
  isValueInInterval a (resolveBin row "s5_now_bin" "s5 now bin") &&
  isValueInInterval b (resolveBin row "s10_now_bin" "s10 now bin") &&
  isValueInInterval c (resolveBin row "s20_now_bin" "s20 now bin")

/-- The `findMatch` handler: refuse on an empty input, refuse (with an
alert) when a `parseFloat` result is `NaN`, otherwise scan the dataset
with `Array.prototype.find` and report found / not-found. -/
def findMatch (data : List ExcelRow) (inputs : SearchInputs) : FindOutcome :=
  if inputs.s5 = "" ∨ inputs.s10 = "" ∨ inputs.s20 = "" then .refusedEmpty
  else
    match parseJsFloat inputs.s5, parseJsFloat inputs.s10, parseJsFloat inputs.s20 with
    | some a, some b, some c =>
      match List.find? (rowPred a b c) data with
      | some row => .ran ⟨true, some row⟩
      | none => .ran ⟨false, none⟩
    | _, _, _ => .refusedNaN

/-- The component state touched by `findMatch`: the loaded dataset and the
stored match result. -/
structure AppState where
  data : List ExcelRow
  matchResult : Option MatchResult
deriving DecidableEq

/-- One `findMatch` invocation as a state transition: only the normal path
calls `setMatchResult`; both refusals leave the state untouched, and the
dataset is never written. -/
def runFindMatch (st : AppState) (inputs : SearchInputs) : AppState :=
  match findMatch st.data inputs with
  | .ran r => { st with matchResult := some r }
  | _ => st

/-- The predicate "the grammar check passes", i.e. `isValueInInterval`
reaches the bound tests instead of returning `false` at the empty-string
guard or the regex match. -/
def acceptsGrammar (s : String) : Bool :=
  if s = "" then false else (matchIntervalRegex (trimJs s.data)).isSome

/-- All characters are whitespace. -/
def allWs (l : List Char) : Prop := ∀ c ∈ l, isWs c = true

/-- All characters are digits. -/
def allDig (l : List Char) : Prop := ∀ c ∈ l, isDig c = true

/-- The spec's wording of a number token: optional sign, digits, and an
optional `.` followed by more (possibly zero) digits. -/
def isNumTok (t : List Char) : Prop :=
  ∃ sg d f, (sg = [] ∨ sg = ['-']) ∧ d ≠ [] ∧ allDig d ∧ allDig f ∧
    (t = sg ++ d ∨ t = sg ++ d ++ '.' :: f)

/-- The spec's wording of the interval grammar over the trimmed string:
an opening bracket, optional whitespace, a number, optional whitespace, a
comma, optional whitespace, a second number, optional whitespace and a
closing bracket — nothing else anywhere. -/
def grammarSpec (l : List Char) : Prop :=
  ∃ ob w1 n1 w2 w3 n2 w4 cb,
    (ob = '(' ∨ ob = '[') ∧ allWs w1 ∧ isNumTok n1 ∧ allWs w2 ∧
    allWs w3 ∧ isNumTok n2 ∧ allWs w4 ∧ (cb = ')' ∨ cb = ']') ∧
    l = ob :: (w1 ++ n1 ++ w2 ++ ',' :: (w3 ++ n2 ++ w4 ++ [cb]))

/-- Bin-field resolution as the claim describes it: use the underscore
key whenever it is present, fall back to the space key when it is absent,
and default to the empty string only when neither key is present. -/
def resolveBinClaim (row : ExcelRow) (k1 k2 : String) : String :=
  match jsLookup row k1 with
  | some v => jsToString v
  | none =>
    match jsLookup row k2 with
    | some v => jsToString v
    | none => ""

/-- First row of the spec's row-matching example. -/
def specRow1 : ExcelRow :=
  [("s5_now_bin", .str "(-50,-45]"), ("s10_now_bin", .str "[0,5)"),
   ("s20_now_bin", .str "(10,20]"), ("stat", .num 1)]

/-- Second row of the spec's row-matching example. -/
def specRow2 : ExcelRow :=
  [("s5_now_bin", .str "[-45,-40)"), ("s10_now_bin", .str "[0,5)"),
   ("s20_now_bin", .str "(10,20]"), ("stat", .num 2)]

/-- A row whose underscore-spelled bin key is present but holds the empty
string, while the space-spelled key holds a well-formed interval. -/
def falsyKeyRow : ExcelRow :=
  [("s5_now_bin", .str ""), ("s5 now bin", .str "[0,1]")]

/-- A row whose three bins all contain the value 1 (used to exercise
first-match-wins on a duplicate dataset). -/
def unitRow : ExcelRow :=
  [("s5_now_bin", .str "[0,2]"), ("s10_now_bin", .str "[0,2]"),
   ("s20_now_bin", .str "[0,2]"), ("stat", .num 7)]

/-- The same bins as `unitRow` under the space-spelled keys. -/
def unitRowSpace : ExcelRow :=
  [("s5 now bin", .str "[0,2]"), ("s10 now bin", .str "[0,2]"),
   ("s20 now bin", .str "[0,2]"), ("stat", .num 8)]

/-- The characters allowed to follow a number token without extending it:
anything that is neither a digit nor a dot. -/
def headOkNum (r : List Char) : Prop :=
  ∀ c t', r = c :: t' → isDig c = false ∧ c ≠ '.'

/-- The six bin-field key spellings probed by `findMatch`. -/
def binKeys : List String :=
  ["s5_now_bin", "s5 now bin", "s10_now_bin", "s10 now bin",
   "s20_now_bin", "s20 now bin"]

example : findMatch [unitRowSpace] ⟨"1", "1", "1"⟩ =
    .ran ⟨true, some unitRowSpace⟩ := by with_unfolding_all rfl
example : isValueInInterval (-46) "(-50,-45]" = true := by with_unfolding_all rfl
example : parseJsFloat "1e-2" = some (1/100) := by with_unfolding_all rfl
example : parseJsFloat "abc" = none := by with_unfolding_all rfl

lemma isDig_not_isWs {c : Char} (h : isDig c = true) : isWs c = false := by
  simp only [isDig, Bool.and_eq_true, decide_eq_true_eq] at h
  simp only [isWs, Bool.or_eq_false_iff, decide_eq_false_iff_not]
  omega

lemma isDig_ne_minus {c : Char} (h : isDig c = true) : c ≠ '-' := by
  intro hc; subst hc; exact absurd h (by decide)

lemma isWs_ne_dot {c : Char} (h : isWs c = true) : c ≠ '.' := by
  intro hc; subst hc; exact absurd h (by decide)

lemma isWs_ne_dig {c : Char} (h : isWs c = true) : isDig c = false := by
  cases hd : isDig c with
  | false => rfl
  | true => rw [isDig_not_isWs hd] at h; exact absurd h (by simp)

lemma dropWs_cons_ws {c : Char} (h : isWs c = true) (cs : List Char) :
    dropWs (c :: cs) = dropWs cs := by simp [dropWs, h]

lemma dropWs_cons_not {c : Char} (h : isWs c = false) (cs : List Char) :
    dropWs (c :: cs) = c :: cs := by simp [dropWs, h]

lemma dropWs_append {w : List Char} (hw : allWs w) (r : List Char) :
    dropWs (w ++ r) = dropWs r := by
  induction w with
  | nil => rfl
  | cons c cs ih =>
    have hc : isWs c = true := hw c (List.mem_cons_self c cs)
    have ih' := ih (fun x hx => hw x (List.mem_cons_of_mem c hx))
    simpa [dropWs, hc] using ih'

lemma dropWs_decomp (l : List Char) : ∃ w, allWs w ∧ l = w ++ dropWs l := by
  induction l with
  | nil => exact Exists.intro [] (And.intro (fun c hc => by cases hc) rfl)
  | cons c cs ih =>
    cases hc : isWs c with
    | true =>
      obtain ⟨w, hw, he⟩ := ih
      refine ⟨c :: w, ?_, ?_⟩
      · intro x hx
        rcases List.mem_cons.mp hx with h | h
        · subst h; exact hc
        · exact hw x h
      · rw [dropWs_cons_ws hc]
        simpa using he
    | false =>
      exact Exists.intro []
        (And.intro (fun x hx => by cases hx) (by rw [dropWs_cons_not hc]; rfl))

lemma spanDig_sound (l : List Char) :
    l = (spanDig l).1 ++ (spanDig l).2 ∧ allDig (spanDig l).1 := by
  induction l with
  | nil => exact ⟨rfl, by intro c hc; cases hc⟩
  | cons c cs ih =>
    cases hc : isDig c with
    | true =>
      obtain ⟨he, ha⟩ := ih
      constructor
      · simpa [spanDig, hc] using he
      · intro x hx
        simp only [spanDig, hc, if_true] at hx
        rcases List.mem_cons.mp hx with h | h
        · subst h; exact hc
        · exact ha x h
    | false =>
      exact ⟨by simp [spanDig, hc], by simp [spanDig, hc]; intro x hx; cases hx⟩

lemma spanDig_append {d : List Char} (hd : allDig d) {r : List Char}
    (hr : ∀ c t', r = c :: t' → isDig c = false) : spanDig (d ++ r) = (d, r) := by
  induction d with
  | nil =>
    cases r with
    | nil => rfl
    | cons c t' => simp [spanDig, hr c t' rfl]
  | cons c cs ih =>
    have hc : isDig c = true := hd c (List.mem_cons_self c cs)
    have ih' := ih (fun x hx => hd x (List.mem_cons_of_mem c hx))
    simp [spanDig, hc, ih']

lemma allDig_nil : allDig [] := fun c hc => by cases hc

lemma allWs_nil : allWs [] := fun c hc => by cases hc

lemma spanDig_eq {l d r : List Char} (h : spanDig l = (d, r)) :
    l = d ++ r ∧ allDig d := by
  have hs := spanDig_sound l
  rw [h] at hs
  exact hs

lemma parseNumCore_sound {l t r : List Char} (h : parseNumCore l = some (t, r)) :
    l = t ++ r ∧ ∃ d f, d ≠ [] ∧ allDig d ∧ allDig f ∧ (t = d ∨ t = d ++ '.' :: f) := by
  rcases hsp : spanDig l with ⟨ds, rest⟩
  obtain ⟨hl, hd⟩ := spanDig_eq hsp
  by_cases hne : ds = []
  · simp [parseNumCore, hsp, hne] at h
  rcases rest with _ | ⟨c, r'⟩
  · simp only [parseNumCore, hsp, if_neg hne, Option.some_inj, Prod.mk.injEq] at h
    obtain ⟨ht, hr⟩ := h
    subst ht; subst hr
    exact ⟨by simpa using hl, ds, [], hne, hd, allDig_nil, Or.inl rfl⟩
  · by_cases hc : c = '.'
    · subst hc
      rcases hsp2 : spanDig r' with ⟨fs, rest2⟩
      obtain ⟨hl2, hf⟩ := spanDig_eq hsp2
      simp [parseNumCore, hsp, hsp2, hne] at h
      obtain ⟨ht, hr⟩ := h
      subst_vars
      refine ⟨?_, ds, fs, hne, hd, hf, Or.inr rfl⟩
      simp
    · simp [parseNumCore, hsp, hne, hc] at h
      obtain ⟨ht, hr⟩ := h
      subst_vars
      exact ⟨by simp, ds, [], hne, hd, allDig_nil, Or.inl rfl⟩

lemma parseNumTok_sound {l t r : List Char} (h : parseNumTok l = some (t, r)) :
    l = t ++ r ∧ isNumTok t := by
  rcases l with _ | ⟨c, rest⟩
  · simp [parseNumTok] at h
  by_cases hc : c = '-'
  · subst hc
    rcases hcore : parseNumCore rest with _ | ⟨tc, rc⟩
    · simp [parseNumTok, hcore] at h
    simp [parseNumTok, hcore] at h
    obtain ⟨ht, hr⟩ := h
    subst_vars
    obtain ⟨hrest, d, f, hne, hd, hf, hshape⟩ := parseNumCore_sound hcore
    constructor
    · rw [hrest]; rfl
    · refine ⟨['-'], d, f, Or.inr rfl, hne, hd, hf, ?_⟩
      rcases hshape with h1 | h1
      · exact Or.inl (by rw [h1]; rfl)
      · exact Or.inr (by rw [h1]; rfl)
  · simp only [parseNumTok, if_neg hc] at h
    obtain ⟨hrest, d, f, hne, hd, hf, hshape⟩ := parseNumCore_sound h
    exact ⟨hrest, [], d, f, Or.inl rfl, hne, hd, hf, by simpa using hshape⟩

lemma parseNumCore_complete_nodot {d r : List Char} (hne : d ≠ []) (hd : allDig d)
    (hr : headOkNum r) : parseNumCore (d ++ r) = some (d, r) := by
  have hs : spanDig (d ++ r) = (d, r) := spanDig_append hd (fun c t' h => (hr c t' h).1)
  rcases r with _ | ⟨c, r'⟩
  · rw [List.append_nil] at hs
    simp [parseNumCore, hs, if_neg hne]
  · simp [parseNumCore, hs, if_neg hne, (hr c r' rfl).2]

lemma parseNumCore_complete_dot {d f r : List Char} (hne : d ≠ []) (hd : allDig d)
    (hf : allDig f) (hr : headOkNum r) :
    parseNumCore (d ++ '.' :: (f ++ r)) = some (d ++ '.' :: f, r) := by
  have hs : spanDig (d ++ '.' :: (f ++ r)) = (d, '.' :: (f ++ r)) :=
    spanDig_append hd (fun c t' h => by
      injection h with h1 h2; subst h1; decide)
  have hs2 : spanDig (f ++ r) = (f, r) := spanDig_append hf (fun c t' h => (hr c t' h).1)
  simp [parseNumCore, hs, if_neg hne, hs2]

lemma parseNumTok_complete {t r : List Char} (ht : isNumTok t) (hr : headOkNum r) :
    parseNumTok (t ++ r) = some (t, r) := by
  obtain ⟨sg, d, f, hsg, hne, hd, hf, hshape⟩ := ht
  rcases d with _ | ⟨d0, d'⟩
  · exact absurd rfl hne
  have hd0 : isDig d0 = true := hd d0 (List.mem_cons_self d0 d')
  have hm : d0 ≠ '-' := isDig_ne_minus hd0
  rcases hsg with hsg | hsg <;> rcases hshape with h1 | h1 <;> subst hsg <;> subst h1
  · have hcore := parseNumCore_complete_nodot hne hd hr
    simp only [List.nil_append, List.cons_append] at hcore ⊢
    simp [parseNumTok, hm, hcore]
  · have hcore := parseNumCore_complete_dot hne hd hf hr
    simp only [List.nil_append, List.cons_append, List.append_assoc] at hcore ⊢
    simp [parseNumTok, hm, hcore]
  · have hcore := parseNumCore_complete_nodot hne hd hr
    simp only [List.cons_append, List.singleton_append] at hcore ⊢
    simp [parseNumTok, hcore]
  · have hcore := parseNumCore_complete_dot hne hd hf hr
    simp only [List.cons_append, List.singleton_append, List.append_assoc] at hcore ⊢
    simp [parseNumTok, hcore]

lemma numTok_head {t : List Char} (ht : isNumTok t) :
    ∃ c t', t = c :: t' ∧ isWs c = false := by
  obtain ⟨sg, d, f, hsg, hne, hd, hf, hshape⟩ := ht
  rcases d with _ | ⟨d0, d'⟩
  · exact absurd rfl hne
  have hw : isWs d0 = false := isDig_not_isWs (hd d0 (List.mem_cons_self d0 d'))
  rcases hsg with hsg | hsg <;> rcases hshape with h1 | h1 <;> subst hsg <;> subst h1
  · exact ⟨d0, d', rfl, hw⟩
  · exact ⟨d0, d' ++ '.' :: f, by simp, hw⟩
  · exact ⟨'-', d0 :: d', rfl, by decide⟩
  · exact ⟨'-', (d0 :: d') ++ '.' :: f, by simp, by decide⟩

lemma dropWs_numTok {n x : List Char} (hn : isNumTok n) : dropWs (n ++ x) = n ++ x := by
  obtain ⟨c, t', he, hws⟩ := numTok_head hn
  rw [he]
  exact dropWs_cons_not hws _

lemma headOkNum_ws_comma {w rest : List Char} (hw : allWs w) :
    headOkNum (w ++ ',' :: rest) := by
  intro c t' h
  rcases w with _ | ⟨w0, w'⟩
  · simp only [List.nil_append] at h
    injection h with h1 h2
    subst h1
    exact ⟨by decide, by decide⟩
  · simp only [List.cons_append] at h
    injection h with h1 h2
    subst h1
    have hw0 := hw w0 (List.mem_cons_self _ _)
    exact ⟨isWs_ne_dig hw0, isWs_ne_dot hw0⟩

lemma headOkNum_ws_close {w : List Char} (hw : allWs w) {cb : Char}
    (hcb : cb = ')' ∨ cb = ']') : headOkNum (w ++ [cb]) := by
  intro c t' h
  rcases w with _ | ⟨w0, w'⟩
  · simp only [List.nil_append] at h
    injection h with h1 h2
    subst h1
    rcases hcb with h | h <;> subst h <;> exact ⟨by decide, by decide⟩
  · simp only [List.cons_append] at h
    injection h with h1 h2
    subst h1
    have hw0 := hw w0 (List.mem_cons_self _ _)
    exact ⟨isWs_ne_dig hw0, isWs_ne_dot hw0⟩

lemma matchIntervalRegex_sound {l : List Char} {b cb : Char} {t1 t2 : List Char}
    (h : matchIntervalRegex l = some (b, t1, t2, cb)) :
    (b = '(' ∨ b = '[') ∧ (cb = ')' ∨ cb = ']') ∧ isNumTok t1 ∧ isNumTok t2 ∧
    ∃ w1 w2 w3 w4, allWs w1 ∧ allWs w2 ∧ allWs w3 ∧ allWs w4 ∧
      l = b :: (w1 ++ (t1 ++ (w2 ++ ',' :: (w3 ++ (t2 ++ (w4 ++ [cb])))))) := by
  rcases l with _ | ⟨b0, l1⟩
  · simp [matchIntervalRegex] at h
  by_cases hb : b0 = '(' ∨ b0 = '['
  case neg => simp [matchIntervalRegex, hb] at h
  rcases hp1 : parseNumTok (dropWs l1) with _ | ⟨t1', l3⟩
  · simp [matchIntervalRegex, hb, hp1] at h
  rcases hd1 : dropWs l3 with _ | ⟨c2, l5⟩
  · simp [matchIntervalRegex, hb, hp1, hd1] at h
  by_cases hc2 : c2 = ','
  case neg => simp [matchIntervalRegex, hb, hp1, hd1, hc2] at h
  subst hc2
  rcases hp2 : parseNumTok (dropWs l5) with _ | ⟨t2', l7⟩
  · simp [matchIntervalRegex, hb, hp1, hd1, hp2] at h
  rcases hd2 : dropWs l7 with _ | ⟨cb0, l8⟩
  · simp [matchIntervalRegex, hb, hp1, hd1, hp2, hd2] at h
  rcases l8 with _ | ⟨x, l9⟩
  swap
  · simp [matchIntervalRegex, hb, hp1, hd1, hp2, hd2] at h
  by_cases hcb0 : cb0 = ')' ∨ cb0 = ']'
  case neg => simp [matchIntervalRegex, hb, hp1, hd1, hp2, hd2, hcb0] at h
  simp [matchIntervalRegex, hb, hp1, hd1, hp2, hd2, hcb0] at h
  obtain ⟨hb1, ht1, ht2, hcb1⟩ := h
  subst_vars
  obtain ⟨hsplit1, hnum1⟩ := parseNumTok_sound hp1
  obtain ⟨hsplit2, hnum2⟩ := parseNumTok_sound hp2
  obtain ⟨w1, hw1, he1⟩ := dropWs_decomp l1
  obtain ⟨w2, hw2, he2⟩ := dropWs_decomp l3
  obtain ⟨w3, hw3, he3⟩ := dropWs_decomp l5
  obtain ⟨w4, hw4, he4⟩ := dropWs_decomp l7
  refine ⟨hb, hcb0, hnum1, hnum2, w1, w2, w3, w4, hw1, hw2, hw3, hw4, ?_⟩
  rw [he1, hsplit1, he2, hd1, he3, hsplit2, he4, hd2]

lemma matchIntervalRegex_complete {l : List Char} (h : grammarSpec l) :
    ∃ b t1 t2 cb, matchIntervalRegex l = some (b, t1, t2, cb) := by
  obtain ⟨ob, w1, n1, w2, w3, n2, w4, cb, hob, hw1, hn1, hw2, hw3, hn2, hw4, hcb, he⟩ := h
  subst he
  simp only [List.append_assoc]
  refine ⟨ob, n1, n2, cb, ?_⟩
  have h1 : dropWs (w1 ++ (n1 ++ (w2 ++ ',' :: (w3 ++ (n2 ++ (w4 ++ [cb]))))))
      = n1 ++ (w2 ++ ',' :: (w3 ++ (n2 ++ (w4 ++ [cb])))) := by
    rw [dropWs_append hw1]
    exact dropWs_numTok hn1
  have h2 : parseNumTok (n1 ++ (w2 ++ ',' :: (w3 ++ (n2 ++ (w4 ++ [cb])))))
      = some (n1, w2 ++ ',' :: (w3 ++ (n2 ++ (w4 ++ [cb])))) :=
    parseNumTok_complete hn1 (headOkNum_ws_comma hw2)
  have h3 : dropWs (w2 ++ ',' :: (w3 ++ (n2 ++ (w4 ++ [cb]))))
      = ',' :: (w3 ++ (n2 ++ (w4 ++ [cb]))) := by
    rw [dropWs_append hw2]
    exact dropWs_cons_not (by decide) _
  have h4 : dropWs (w3 ++ (n2 ++ (w4 ++ [cb]))) = n2 ++ (w4 ++ [cb]) := by
    rw [dropWs_append hw3]
    exact dropWs_numTok hn2
  have h5 : parseNumTok (n2 ++ (w4 ++ [cb])) = some (n2, w4 ++ [cb]) :=
    parseNumTok_complete hn2 (headOkNum_ws_close hw4 hcb)
  have h6 : dropWs (w4 ++ [cb]) = [cb] := by
    rw [dropWs_append hw4]
    rcases hcb with h | h <;> subst h <;> decide
  simp [matchIntervalRegex, hob, h1, h2, h3, h4, h5, h6, hcb]

lemma isDig_ne_plus {c : Char} (h : isDig c = true) : c ≠ '+' := by
  intro hc; subst hc; exact absurd h (by decide)

lemma spanDig_all {d : List Char} (hd : allDig d) : spanDig d = (d, []) := by
  have := @spanDig_append d hd [] (fun c t' h => by simp at h)
  simpa using this

lemma parseJsFloatL_isSome_of_numTok {t : List Char} (ht : isNumTok t) :
    (parseJsFloatL t).isSome = true := by
  obtain ⟨sg, d, f, hsg, hne, hd, hf, hshape⟩ := ht
  rcases d with _ | ⟨d0, d'⟩
  · exact absurd rfl hne
  have hd0 : isDig d0 = true := hd d0 (List.mem_cons_self d0 d')
  have hw : isWs d0 = false := isDig_not_isWs hd0
  have hm : d0 ≠ '-' := isDig_ne_minus hd0
  have hp : d0 ≠ '+' := isDig_ne_plus hd0
  rcases hsg with hsg | hsg <;> rcases hshape with h1 | h1 <;> subst hsg <;> subst h1
  · have hq1 : spanDig (d0 :: d') = (d0 :: d', []) := spanDig_all hd
    simp [parseJsFloatL, dropWs_cons_not hw, splitSign, hm, hp, hq1]
  · have hq1 : spanDig ((d0 :: d') ++ '.' :: f) = (d0 :: d', '.' :: f) :=
      spanDig_append hd (fun c t' h => by injection h with h1 h2; subst h1; decide)
    have hq2 : spanDig f = (f, []) := spanDig_all hf
    simp only [List.nil_append, List.cons_append] at hq1 ⊢
    simp [parseJsFloatL, dropWs_cons_not hw, splitSign, hm, hp, hq1, hq2]
  · have hq1 : spanDig (d0 :: d') = (d0 :: d', []) := spanDig_all hd
    simp [parseJsFloatL, dropWs_cons_not (by decide : isWs '-' = false), splitSign, hq1]
  · have hq1 : spanDig ((d0 :: d') ++ '.' :: f) = (d0 :: d', '.' :: f) :=
      spanDig_append hd (fun c t' h => by injection h with h1 h2; subst h1; decide)
    have hq2 : spanDig f = (f, []) := spanDig_all hf
    simp only [List.cons_append] at hq1 ⊢
    simp [parseJsFloatL, dropWs_cons_not (by decide : isWs '-' = false), splitSign,
      hq1, hq2]

lemma isValueInInterval_eval {v : ℚ} {s : String} {sb eb : Char} {t1 t2 : List Char}
    {lo hi : ℚ}
    (hm : matchIntervalRegex (trimJs s.data) = some (sb, t1, t2, eb))
    (h1 : parseJsFloatL t1 = some lo) (h2 : parseJsFloatL t2 = some hi) :
    isValueInInterval v s =
      ((if sb = '(' then decide (v > lo)
        else if sb = '[' then decide (v ≥ lo) else false) &&
       (if eb = ')' then decide (v < hi)
        else if eb = ']' then decide (v ≤ hi) else false)) := by
  have hs : s ≠ "" := by
    intro he
    subst he
    have h0 : trimJs (String.data "") = [] := rfl
    rw [h0] at hm
    simp [matchIntervalRegex] at hm
  simp only [isValueInInterval, if_neg hs, hm, h1, h2]

lemma find?_first {α : Type} {p : α → Bool} {l1 : List α} (h : ∀ x ∈ l1, p x = false)
    {r : α} (hr : p r = true) (l2 : List α) :
    List.find? p (l1 ++ r :: l2) = some r := by
  induction l1 with
  | nil =>
    rw [List.nil_append]
    exact List.find?_cons_of_pos _ hr
  | cons a as ih =>
    rw [List.cons_append,
      List.find?_cons_of_neg _ (by simp [h a (List.mem_cons_self _ _)])]
    exact ih (fun x hx => h x (List.mem_cons_of_mem _ hx))

lemma find?_none {α : Type} {p : α → Bool} {l : List α} (h : ∀ x ∈ l, p x = false) :
    List.find? p l = none := by
  induction l with
  | nil => rfl
  | cons a as ih =>
    rw [List.find?_cons_of_neg _ (by simp [h a (List.mem_cons_self _ _)])]
    exact ih (fun x hx => h x (List.mem_cons_of_mem _ hx))

lemma jsLookup_not_mem {row : ExcelRow} {k : String} (h : ∀ p ∈ row, p.1 ≠ k) :
    jsLookup row k = none := by
  induction row with
  | nil => rfl
  | cons p rest ih =>
    simp only [jsLookup, if_neg (h p (List.mem_cons_self _ _))]
    exact ih (fun q hq => h q (List.mem_cons_of_mem _ hq))

lemma parseJsFloat_ne_empty {s : String} {a : ℚ} (h : parseJsFloat s = some a) :
    s ≠ "" := by
  intro he
  subst he
  have h0 : parseJsFloat "" = none := rfl
  rw [h0] at h
  simp at h

lemma isValueInInterval_true_bounds {v : ℚ} {s : String} {sb eb : Char}
    {t1 t2 : List Char} {lo hi : ℚ}
    (hm : matchIntervalRegex (trimJs s.data) = some (sb, t1, t2, eb))
    (h1 : parseJsFloatL t1 = some lo) (h2 : parseJsFloatL t2 = some hi)
    (ht : isValueInInterval v s = true) : lo ≤ v ∧ v ≤ hi := by
  rw [isValueInInterval_eval hm h1 h2, Bool.and_eq_true] at ht
  obtain ⟨hA, hB⟩ := ht
  constructor
  · by_cases hb : sb = '('
    · rw [if_pos hb, decide_eq_true_eq] at hA
      linarith
    · rw [if_neg hb] at hA
      by_cases hb2 : sb = '['
      · rw [if_pos hb2, decide_eq_true_eq] at hA
        exact hA
      · rw [if_neg hb2] at hA
        exact absurd hA (by simp)
  · by_cases he : eb = ')'
    · rw [if_pos he, decide_eq_true_eq] at hB
      linarith
    · rw [if_neg he] at hB
      by_cases he2 : eb = ']'
      · rw [if_pos he2, decide_eq_true_eq] at hB
        exact hB
      · rw [if_neg he2] at hB
        exact absurd hB (by simp)

/-- C10: For every string accepted by the interval regex, the two captured
bound substrings always parse successfully as decimal numbers, so the guard
returning `false` on a `NaN` bound is unreachable for grammar-accepted
strings. -/
theorem claim_C10_captures_parse (s : String) (sb eb : Char) (t1 t2 : List Char)
    (hm : matchIntervalRegex (trimJs s.data) = some (sb, t1, t2, eb)) :
    (parseJsFloatL t1).isSome = true ∧ (parseJsFloatL t2).isSome = true := by
  obtain ⟨_, _, hn1, hn2, _⟩ := matchIntervalRegex_sound hm
  exact ⟨parseJsFloatL_isSome_of_numTok hn1, parseJsFloatL_isSome_of_numTok hn2⟩

theorem claim_C10_captures_parse_witness :
    (parseJsFloatL ['5']).isSome = true ∧
    (parseJsFloatL ['1', '0']).isSome = true :=
  claim_C10_captures_parse "[5, 10]" '[' ']' ['5'] ['1', '0'] (by decide)

/-- C4: For every value and every string that fails the interval grammar
(the empty string included), `isValueInInterval` returns `false`; the
embedding is a total boolean function, so no error reaches the caller. -/
theorem claim_C4_malformed_false (v : ℚ) (s : String)
    (h : acceptsGrammar s = false) : isValueInInterval v s = false := by
  unfold acceptsGrammar at h
  by_cases hs : s = ""
  · subst hs
    simp [isValueInInterval]
  · rw [if_neg hs] at h
    rcases hm : matchIntervalRegex (trimJs s.data) with _ | ⟨sb, t1, t2, eb⟩
    · simp [isValueInInterval, if_neg hs, hm]
    · rw [hm] at h
      simp at h

theorem claim_C4_malformed_false_witness :
    isValueInInterval 5 "5-10" = false ∧ isValueInInterval 5 "" = false ∧
    isValueInInterval 5 "[5,10" = false :=
  ⟨claim_C4_malformed_false 5 "5-10" (by decide),
   claim_C4_malformed_false 5 "" (by decide),
   claim_C4_malformed_false 5 "[5,10" (by decide)⟩

/-- C8: on the spec's concrete two-row dataset, inputs (-46, 2, 15) match the
first row, (-44, 2, 15) match the second row, and (-40, 2, 15) match no row. -/
theorem claim_C8_concrete_dataset :
    findMatch [specRow1, specRow2] ⟨"-46", "2", "15"⟩ =
      FindOutcome.ran ⟨true, some specRow1⟩ ∧
    findMatch [specRow1, specRow2] ⟨"-44", "2", "15"⟩ =
      FindOutcome.ran ⟨true, some specRow2⟩ ∧
    findMatch [specRow1, specRow2] ⟨"-40", "2", "15"⟩ =
      FindOutcome.ran ⟨false, none⟩ := by
  refine ⟨?_, ?_, ?_⟩ <;> with_unfolding_all rfl

/-- C1: For every numeric value and every grammar-accepted interval string,
`isValueInInterval` returns `true` iff both bound tests pass, the lower test
being `v > lo` for `(` and `v ≥ lo` for `[`, the upper test `v < hi` for `)`
and `v ≤ hi` for `]`; the two quoted examples are established in the witness. -/
theorem claim_C1_bracket_semantics (v : ℚ) (s : String) (sb eb : Char)
    (t1 t2 : List Char) (lo hi : ℚ)
    (hm : matchIntervalRegex (trimJs s.data) = some (sb, t1, t2, eb))
    (h1 : parseJsFloatL t1 = some lo) (h2 : parseJsFloatL t2 = some hi) :
    isValueInInterval v s = true ↔
      ((if sb = '(' then v > lo else v ≥ lo) ∧
       (if eb = ')' then v < hi else v ≤ hi)) := by
  have hev := @isValueInInterval_eval v s sb eb t1 t2 lo hi hm h1 h2
  obtain ⟨hb, hcb, _⟩ := matchIntervalRegex_sound hm
  rw [hev]
  rcases hb with hb | hb <;> subst hb <;> rcases hcb with hc | hc <;> subst hc <;>
    simp [Bool.and_eq_true, decide_eq_true_eq]

theorem claim_C1_bracket_semantics_witness :
    (isValueInInterval 5 "(5, 10]" = true ↔ ((5 : ℚ) > 5 ∧ (5 : ℚ) ≤ 10)) ∧
    (isValueInInterval 5 "[5, 10]" = true ↔ ((5 : ℚ) ≥ 5 ∧ (5 : ℚ) ≤ 10)) ∧
    isValueInInterval 5 "(5, 10]" = false ∧ isValueInInterval 5 "[5, 10]" = true := by
  refine ⟨?_, ?_, by with_unfolding_all rfl, by with_unfolding_all rfl⟩
  · have h := claim_C1_bracket_semantics 5 "(5, 10]" '(' ']' ['5'] ['1', '0'] 5 10
      (by decide) (by with_unfolding_all rfl) (by with_unfolding_all rfl)
    rw [if_pos rfl, if_neg (by decide)] at h
    exact h
  · have h := claim_C1_bracket_semantics 5 "[5, 10]" '[' ']' ['5'] ['1', '0'] 5 10
      (by decide) (by with_unfolding_all rfl) (by with_unfolding_all rfl)
    rw [if_neg (by decide), if_neg (by decide)] at h
    exact h

/-- C7: For every grammar-accepted interval string whose parsed lower bound
strictly exceeds its upper bound, the predicate returns `false` for every
value: the two comparisons are evaluated literally and cannot both hold. -/
theorem claim_C7_inverted_bounds (v : ℚ) (s : String) (sb eb : Char)
    (t1 t2 : List Char) (lo hi : ℚ)
    (hm : matchIntervalRegex (trimJs s.data) = some (sb, t1, t2, eb))
    (h1 : parseJsFloatL t1 = some lo) (h2 : parseJsFloatL t2 = some hi)
    (hlt : hi < lo) : isValueInInterval v s = false := by
  rw [Bool.eq_false_iff]
  intro ht
  obtain ⟨hl, hr⟩ := isValueInInterval_true_bounds hm h1 h2 ht
  linarith

theorem claim_C7_inverted_bounds_witness :
    isValueInInterval 7 "(10, 5]" = false :=
  claim_C7_inverted_bounds 7 "(10, 5]" '(' ']' ['1', '0'] ['5'] 10 5
    (by decide) (by with_unfolding_all rfl) (by with_unfolding_all rfl)
    (by norm_num)

/-- C2: For every dataset and parsed numeric input triple, `findMatch`
returns the first row in dataset order satisfying all three interval
predicates (earlier rows that also match always win over later ones), and
not-found when no row satisfies all three. -/
theorem claim_C2_first_match (data : List ExcelRow) (inputs : SearchInputs)
    (a b c : ℚ)
    (h5 : parseJsFloat inputs.s5 = some a)
    (h10 : parseJsFloat inputs.s10 = some b)
    (h20 : parseJsFloat inputs.s20 = some c) :
    (∀ l1 r l2, data = l1 ++ r :: l2 → rowPred a b c r = true →
      (∀ x ∈ l1, rowPred a b c x = false) →
      findMatch data inputs = FindOutcome.ran ⟨true, some r⟩) ∧
    ((∀ x ∈ data, rowPred a b c x = false) →
      findMatch data inputs = FindOutcome.ran ⟨false, none⟩) := by
  have hne : ¬(inputs.s5 = "" ∨ inputs.s10 = "" ∨ inputs.s20 = "") := by
    rintro (he | he | he)
    · exact parseJsFloat_ne_empty h5 he
    · exact parseJsFloat_ne_empty h10 he
    · exact parseJsFloat_ne_empty h20 he
  constructor
  · intro l1 r l2 hsplit hr hl1
    subst hsplit
    simp only [findMatch, if_neg hne, h5, h10, h20, find?_first hl1 hr l2]
  · intro hall
    simp only [findMatch, if_neg hne, h5, h10, h20, find?_none hall]

theorem claim_C2_first_match_witness :
    findMatch [unitRow, unitRow] ⟨"1", "1", "1"⟩ =
      FindOutcome.ran ⟨true, some unitRow⟩ :=
  (claim_C2_first_match [unitRow, unitRow] ⟨"1", "1", "1"⟩ 1 1 1
      (by with_unfolding_all rfl) (by with_unfolding_all rfl)
      (by with_unfolding_all rfl)).1
    [] unitRow [unitRow] rfl (by with_unfolding_all rfl)
    (fun x hx => absurd hx (List.not_mem_nil x))

/-- C6: If any of the three input strings fails to parse as a number, the
matcher refuses: the outcome is never a `ran` result (so it cannot be
mistaken for not-found) and the application state, dataset included, is
left unchanged. -/
theorem claim_C6_nan_refusal (st : AppState) (inputs : SearchInputs)
    (h : parseJsFloat inputs.s5 = none ∨ parseJsFloat inputs.s10 = none ∨
      parseJsFloat inputs.s20 = none) :
    (∀ r : MatchResult, findMatch st.data inputs ≠ FindOutcome.ran r) ∧
    runFindMatch st inputs = st := by
  have hout : ∀ r : MatchResult, findMatch st.data inputs ≠ FindOutcome.ran r := by
    intro r hr
    by_cases he : inputs.s5 = "" ∨ inputs.s10 = "" ∨ inputs.s20 = ""
    · simp [findMatch, if_pos he] at hr
    · rcases h5 : parseJsFloat inputs.s5 with _ | a <;>
        rcases h10 : parseJsFloat inputs.s10 with _ | b <;>
        rcases h20 : parseJsFloat inputs.s20 with _ | c <;>
        simp [findMatch, if_neg he, h5, h10, h20] at hr
      rcases h with h | h | h
      · rw [h5] at h; exact Option.noConfusion h
      · rw [h10] at h; exact Option.noConfusion h
      · rw [h20] at h; exact Option.noConfusion h
  refine ⟨hout, ?_⟩
  rcases ho : findMatch st.data inputs with _ | _ | r
  · simp [runFindMatch, ho]
  · simp [runFindMatch, ho]
  · exact absurd ho (hout r)

theorem claim_C6_nan_refusal_witness :
    (∀ r : MatchResult,
      findMatch (AppState.mk [unitRow] none).data ⟨"abc", "2", "3"⟩ ≠
        FindOutcome.ran r) ∧
    runFindMatch (AppState.mk [unitRow] none) ⟨"abc", "2", "3"⟩ =
      AppState.mk [unitRow] none :=
  claim_C6_nan_refusal (AppState.mk [unitRow] none) ⟨"abc", "2", "3"⟩
    (Or.inl (by with_unfolding_all rfl))

/-- C9: `findMatch` is a pure function of the dataset and the inputs: it
never writes the dataset, and re-invoking it on the resulting state with
the same inputs produces the identical state (idempotence, no hidden
state). -/
theorem claim_C9_stateless_idempotent (st : AppState) (inputs : SearchInputs) :
    (runFindMatch st inputs).data = st.data ∧
    runFindMatch (runFindMatch st inputs) inputs = runFindMatch st inputs := by
  constructor
  · rcases h : findMatch st.data inputs with _ | _ | r <;> simp [runFindMatch, h]
  · rcases h : findMatch st.data inputs with _ | _ | r
    · have e1 : runFindMatch st inputs = st := by simp [runFindMatch, h]
      rw [e1]
      exact e1
    · have e1 : runFindMatch st inputs = st := by simp [runFindMatch, h]
      rw [e1]
      exact e1
    · have e1 : runFindMatch st inputs = { st with matchResult := some r } := by
        simp [runFindMatch, h]
      rw [e1]
      have h2 : findMatch ({ st with matchResult := some r } : AppState).data inputs =
          FindOutcome.ran r := h
      simp [runFindMatch, h2]

/-- C3: `isValueInInterval` passes the grammar check (rather than returning
`false` at the empty-string guard or the regex) exactly when the trimmed
string is an opening bracket, optional whitespace, a signed decimal number,
optional whitespace, a comma, optional whitespace, a second signed decimal
number, optional whitespace and a closing bracket, with nothing else. -/
theorem claim_C3_grammar_exact (s : String) :
    acceptsGrammar s = true ↔ grammarSpec (trimJs s.data) := by
  constructor
  · intro h
    unfold acceptsGrammar at h
    by_cases hs : s = ""
    · rw [if_pos hs] at h
      exact absurd h (by simp)
    rw [if_neg hs, Option.isSome_iff_exists] at h
    obtain ⟨⟨b, t1, t2, cb⟩, hm⟩ := h
    obtain ⟨hb, hcb, hn1, hn2, w1, w2, w3, w4, hw1, hw2, hw3, hw4, he⟩ :=
      matchIntervalRegex_sound hm
    exact ⟨b, w1, t1, w2, w3, t2, w4, cb, hb, hw1, hn1, hw2, hw3, hn2, hw4, hcb,
      by simpa [List.append_assoc] using he⟩
  · intro h
    obtain ⟨b, t1, t2, cb, hm⟩ := matchIntervalRegex_complete h
    unfold acceptsGrammar
    have hs : s ≠ "" := by
      intro he
      subst he
      have h0 : trimJs (String.data "") = [] := rfl
      rw [h0] at h
      obtain ⟨ob, w1, n1, w2, w3, n2, w4, cb', _, _, _, _, _, _, _, _, he2⟩ := h
      exact List.noConfusion he2
    rw [if_neg hs, hm]
    rfl

/-- C5 counterexample: a row whose underscore-spelled key is present but
holds the (falsy) empty string resolves, in the code, to the space-spelled
key's value — not to the present underscore value as the claim's
"defaulting ... only if neither key is present" resolution would. -/
theorem claim_C5_counterexample :
    jsLookup falsyKeyRow "s5_now_bin" = some (CellVal.str "") ∧
    resolveBin falsyKeyRow "s5_now_bin" "s5 now bin" = "[0,1]" ∧
    resolveBinClaim falsyKeyRow "s5_now_bin" "s5 now bin" = "" ∧
    resolveBin falsyKeyRow "s5_now_bin" "s5 now bin" ≠
      resolveBinClaim falsyKeyRow "s5_now_bin" "s5 now bin" := by
  refine ⟨?_, ?_, ?_, ?_⟩ <;> decide

/-- C5 amended: the resolution tries the underscore key first but falls
through to the space key whenever the underscore value is absent or falsy
(JS `||`), defaulting to the empty string when both are; consequently a row
carrying its three bins under the space-spelled keys (underscore keys
absent) is matched identically to the same row under the underscore keys. -/
theorem claim_C5_key_fallback_amended (a b c : ℚ) (v5 v10 v20 : CellVal)
    (rest : ExcelRow) (hrest : ∀ p ∈ rest, p.1 ∉ binKeys) :
    rowPred a b c
        ([("s5_now_bin", v5), ("s10_now_bin", v10), ("s20_now_bin", v20)] ++ rest) =
      rowPred a b c
        ([("s5 now bin", v5), ("s10 now bin", v10), ("s20 now bin", v20)] ++ rest) := by
  have hR : ∀ k, k ∈ binKeys → jsLookup rest k = none := fun k hk =>
    jsLookup_not_mem (fun p hp hpk => (hrest p hp) (hpk ▸ hk))
  have r1 := hR "s5_now_bin" (by decide)
  have r2 := hR "s5 now bin" (by decide)
  have r3 := hR "s10_now_bin" (by decide)
  have r4 := hR "s10 now bin" (by decide)
  have r5 := hR "s20_now_bin" (by decide)
  have r6 := hR "s20 now bin" (by decide)
  simp [rowPred, resolveBin, jsLookup, jsOr, r1, r2, r3, r4, r5, r6]

theorem claim_C5_key_fallback_amended_witness :
    rowPred 1 1 1
        ([("s5_now_bin", CellVal.str "[0,2]"), ("s10_now_bin", CellVal.str "[0,2]"),
          ("s20_now_bin", CellVal.str "[0,2]")] ++ [("stat", CellVal.num 7)]) =
      rowPred 1 1 1
        ([("s5 now bin", CellVal.str "[0,2]"), ("s10 now bin", CellVal.str "[0,2]"),
          ("s20 now bin", CellVal.str "[0,2]")] ++ [("stat", CellVal.num 7)]) :=
  claim_C5_key_fallback_amended 1 1 1 (CellVal.str "[0,2]") (CellVal.str "[0,2]")
    (CellVal.str "[0,2]") [("stat", CellVal.num 7)] (by decide)
